import Mathlib

/-!
# Steady-state psychrometric cooling solver — verification development

Shallow embedding of the HVAC cooling/dehumidification model `MxCcRhTzBl`
(mixing → cooling coil with bypass → reheating coil → thermal zone with
building load) and its control-mode entry points (`CAV_wd`, `VBP_wd`),
over exact rational arithmetic.

The repository ships only the notebook layer calling the solver module, so
the solver itself is modelled from the specification: the fixed chain of
block energy/mass balances plus two proportional controller laws is
assembled into one square linear system, solved directly; bypass control
wraps the linear solve in a 1-D root finder with a bracketing precheck.
-/

namespace Cool

/-- Modelled from the spec: specific heat of moist air (J/(kg·K)), the
`c` constant of the missing solver module. -/
def ca : ℚ := 1000

/-- Modelled from the spec: latent heat of vaporisation (J/kg), the
`l` constant of the missing solver module. -/
def lv : ℚ := 2496000

/-- Modelled from the spec: the `parameters` tuple `(ṁ, ṁo, β, Kθ, Kw)` —
supply mass flow, outdoor mass flow, bypass factor, temperature-controller
gain, humidity-controller gain. -/
structure Params where
  m : ℚ
  mo : ℚ
  β : ℚ
  Kθ : ℚ
  Kw : ℚ
deriving DecidableEq

/-- Modelled from the spec: the `inputs` tuple
`(θo, φo, θ5sp, φ5sp, ṁi, UA, QsBL, QlBL)` — outdoor temperature and
relative humidity, zone temperature and humidity set points, infiltration
flow, envelope conductance, sensible and latent auxiliary loads. -/
structure Inputs where
  θo : ℚ
  φo : ℚ
  θ5sp : ℚ
  φ5sp : ℚ
  mi : ℚ
  UA : ℚ
  QsBL : ℚ
  QlBL : ℚ
deriving DecidableEq

/-- Modelled from the spec: the moist-air property library (a dependency
outside the core, the missing `psy` module): a humidity-ratio function
`w(θ, φ)` and a linearised saturation line `wsat(θ) = ws0 + ks·(θ − θs0)`
describing the apparatus-dew-point states the cooling coil drives air
toward. -/
structure Psychro where
  w : ℚ → ℚ → ℚ
  θs0 : ℚ
  ws0 : ℚ
  ks : ℚ

/-- Modelled from the spec: linearised saturation humidity ratio at `θ`. -/
def wsatLin (ψ : Psychro) (θ : ℚ) : ℚ := ψ.ws0 + ψ.ks * (θ - ψ.θs0)

/-- Modelled from the spec: the solution vector of the assembled system —
one air state (temperature, humidity ratio) per internal node of the fixed
chain (1 mixed, 2 coil full-contact/apparatus-dew-point, 3 post-bypass
mix, 4 supply after reheat, 5 zone) plus the two controller outputs
(total cooling power `QtCC`, reheat power `QsHC`). -/
structure Sol where
  θ1 : ℚ
  w1 : ℚ
  θ2 : ℚ
  w2 : ℚ
  θ3 : ℚ
  w3 : ℚ
  θ4 : ℚ
  w4 : ℚ
  θ5 : ℚ
  w5 : ℚ
  QtCC : ℚ
  QsHC : ℚ
deriving DecidableEq

instance : Inhabited Sol := ⟨⟨0, 0, 0, 0, 0, 0, 0, 0, 0, 0, 0, 0⟩⟩

/-- Modelled from the spec: the assembled system of block energy/mass
balances and proportional-control laws (`lin_model` of the missing
module).  Equations: mixing sensible/latent, linearised saturation at the
coil full-contact outlet, bypass convex combination, coil power from the
enthalpy drop, reheat sensible with humidity unchanged, zone
sensible/latent balances with envelope loss, infiltration and auxiliary
loads, and the two proportional controllers
`QtCC = Kθ(θ5sp − θ5)`, `QsHC = Kw(wsp − w5)`. -/
def LinSys (p : Params) (i : Inputs) (ψ : Psychro) (x : Sol) : Prop :=
  p.m * x.θ1 = (p.m - p.mo) * x.θ5 + p.mo * i.θo ∧
  p.m * x.w1 = (p.m - p.mo) * x.w5 + p.mo * ψ.w i.θo i.φo ∧
  x.w2 = ψ.ws0 + ψ.ks * (x.θ2 - ψ.θs0) ∧
  x.θ3 = p.β * x.θ1 + (1 - p.β) * x.θ2 ∧
  x.w3 = p.β * x.w1 + (1 - p.β) * x.w2 ∧
  x.QtCC = p.m * (ca * (x.θ3 - x.θ1) + lv * (x.w3 - x.w1)) ∧
  p.m * ca * x.θ4 = p.m * ca * x.θ3 + x.QsHC ∧
  x.w4 = x.w3 ∧
  p.m * ca * (x.θ5 - x.θ4) = i.QsBL + (i.UA + i.mi * ca) * (i.θo - x.θ5) ∧
  p.m * lv * (x.w5 - x.w4) = i.QlBL + i.mi * lv * (ψ.w i.θo i.φo - x.w5) ∧
  x.QtCC = p.Kθ * (i.θ5sp - x.θ5) ∧
  x.QsHC = p.Kw * (ψ.w i.θ5sp i.φ5sp - x.w5)

instance instDecidableLinSys (p : Params) (i : Inputs) (ψ : Psychro) (x : Sol) :
    Decidable (LinSys p i ψ x) := by
  unfold LinSys
  exact inferInstance

/-- Determinant of a 3×3 matrix given row-wise. -/
def det3 (a1 a2 a3 b1 b2 b3 c1 c2 c3 : ℚ) : ℚ :=
  a1 * (b2 * c3 - b3 * c2) - a2 * (b1 * c3 - b3 * c1) + a3 * (b1 * c2 - b2 * c1)

/-- Coefficient of `θ5` in the reduced zone-sensible equation. -/
def coefA1 (p : Params) (i : Inputs) : ℚ :=
  p.m * ca - p.β * ca * (p.m - p.mo) + i.UA + i.mi * ca

/-- Coefficient of `θ2` in the reduced zone-sensible equation. -/
def coefA3 (p : Params) : ℚ := -(p.m * ca * (1 - p.β))

/-- Right-hand side of the reduced zone-sensible equation. -/
def rhsA (p : Params) (i : Inputs) (ψ : Psychro) : ℚ :=
  p.β * ca * p.mo * i.θo + p.Kw * ψ.w i.θ5sp i.φ5sp +
    (i.UA + i.mi * ca) * i.θo + i.QsBL

/-- Coefficient of `w5` in the reduced zone-latent equation. -/
def coefB2 (p : Params) (i : Inputs) : ℚ :=
  p.m * lv - lv * p.β * (p.m - p.mo) + i.mi * lv

/-- Coefficient of `θ2` in the reduced zone-latent equation. -/
def coefB3 (p : Params) (ψ : Psychro) : ℚ := -(p.m * lv * (1 - p.β) * ψ.ks)

/-- Right-hand side of the reduced zone-latent equation. -/
def rhsB (p : Params) (i : Inputs) (ψ : Psychro) : ℚ :=
  lv * p.β * p.mo * ψ.w i.θo i.φo +
    p.m * lv * (1 - p.β) * (ψ.ws0 - ψ.ks * ψ.θs0) +
    i.mi * lv * ψ.w i.θo i.φo + i.QlBL

/-- Coefficient of `θ5` in the reduced coil-power/controller equation. -/
def coefC1 (p : Params) : ℚ := p.Kθ - (1 - p.β) * ca * (p.m - p.mo)

/-- Coefficient of `w5` in the reduced coil-power/controller equation. -/
def coefC2 (p : Params) : ℚ := -((1 - p.β) * lv * (p.m - p.mo))

/-- Coefficient of `θ2` in the reduced coil-power/controller equation. -/
def coefC3 (p : Params) (ψ : Psychro) : ℚ := p.m * (1 - p.β) * (ca + lv * ψ.ks)

/-- Right-hand side of the reduced coil-power/controller equation. -/
def rhsC (p : Params) (i : Inputs) (ψ : Psychro) : ℚ :=
  p.Kθ * i.θ5sp + (1 - p.β) * ca * p.mo * i.θo +
    (1 - p.β) * lv * p.mo * ψ.w i.θo i.φo -
    p.m * (1 - p.β) * lv * (ψ.ws0 - ψ.ks * ψ.θs0)

/-- Determinant of the reduced 3×3 system in `(θ5, w5, θ2)` obtained by
eliminating the back-substitutable unknowns from the assembled system. -/
def detA (p : Params) (i : Inputs) (ψ : Psychro) : ℚ :=
  det3 (coefA1 p i) p.Kw (coefA3 p)
       0 (coefB2 p i) (coefB3 p ψ)
       (coefC1 p) (coefC2 p) (coefC3 p ψ)

/-- Cramer numerator for `θ5`. -/
def numθ5 (p : Params) (i : Inputs) (ψ : Psychro) : ℚ :=
  det3 (rhsA p i ψ) p.Kw (coefA3 p)
       (rhsB p i ψ) (coefB2 p i) (coefB3 p ψ)
       (rhsC p i ψ) (coefC2 p) (coefC3 p ψ)

/-- Cramer numerator for `w5`. -/
def numw5 (p : Params) (i : Inputs) (ψ : Psychro) : ℚ :=
  det3 (coefA1 p i) (rhsA p i ψ) (coefA3 p)
       0 (rhsB p i ψ) (coefB3 p ψ)
       (coefC1 p) (rhsC p i ψ) (coefC3 p ψ)

/-- Cramer numerator for `θ2`. -/
def numθ2 (p : Params) (i : Inputs) (ψ : Psychro) : ℚ :=
  det3 (coefA1 p i) p.Kw (rhsA p i ψ)
       0 (coefB2 p i) (rhsB p i ψ)
       (coefC1 p) (coefC2 p) (rhsC p i ψ)

/-- The candidate solution vector built from the Cramer values by
back-substitution through the block chain. -/
def mkSol (p : Params) (i : Inputs) (ψ : Psychro) : Sol :=
  let Δ := detA p i ψ
  let θ5 := numθ5 p i ψ / Δ
  let w5 := numw5 p i ψ / Δ
  let θ2 := numθ2 p i ψ / Δ
  let θ1 := ((p.m - p.mo) * θ5 + p.mo * i.θo) / p.m
  let w1 := ((p.m - p.mo) * w5 + p.mo * ψ.w i.θo i.φo) / p.m
  let w2 := ψ.ws0 + ψ.ks * (θ2 - ψ.θs0)
  let θ3 := p.β * θ1 + (1 - p.β) * θ2
  let w3 := p.β * w1 + (1 - p.β) * w2
  let QsHC := p.Kw * (ψ.w i.θ5sp i.φ5sp - w5)
  let θ4 := θ3 + QsHC / (p.m * ca)
  { θ1 := θ1, w1 := w1, θ2 := θ2, w2 := w2, θ3 := θ3, w3 := w3,
    θ4 := θ4, w4 := w3, θ5 := θ5, w5 := w5,
    QtCC := p.Kθ * (i.θ5sp - θ5), QsHC := QsHC }

/-- Modelled from the spec: the direct linear solve (`solve_lin` of the
missing module).  Reduces the assembled system to three unknowns
`(θ5, w5, θ2)`, solves by Cramer's rule, back-substitutes the remaining
node states and controller outputs, and reports a degenerate assembly
(zero flow or singular matrix) as `none` rather than returning a vector. -/
def solveLin (p : Params) (i : Inputs) (ψ : Psychro) : Option Sol :=
  if p.m = 0 ∨ detA p i ψ = 0 then none else some (mkSol p i ψ)

lemma solveLin_cases {p : Params} {i : Inputs} {ψ : Psychro} {x : Sol}
    (h : solveLin p i ψ = some x) :
    p.m ≠ 0 ∧ detA p i ψ ≠ 0 ∧ x = mkSol p i ψ := by
  unfold solveLin at h
  split_ifs at h with hc
  · push_neg at hc
    exact ⟨hc.1, hc.2, (Option.some_injective _ h).symm⟩

/-- Cramer identity for the first row of the reduced system. -/
lemma cramerA (p : Params) (i : Inputs) (ψ : Psychro) :
    coefA1 p i * numθ5 p i ψ + p.Kw * numw5 p i ψ + coefA3 p * numθ2 p i ψ =
      rhsA p i ψ * detA p i ψ := by
  simp only [detA, numθ5, numw5, numθ2, det3]
  ring

/-- Cramer identity for the second row of the reduced system. -/
lemma cramerB (p : Params) (i : Inputs) (ψ : Psychro) :
    coefB2 p i * numw5 p i ψ + coefB3 p ψ * numθ2 p i ψ =
      rhsB p i ψ * detA p i ψ := by
  simp only [detA, numθ5, numw5, numθ2, det3]
  ring

/-- Cramer identity for the third row of the reduced system. -/
lemma cramerC (p : Params) (i : Inputs) (ψ : Psychro) :
    coefC1 p * numθ5 p i ψ + coefC2 p * numw5 p i ψ + coefC3 p ψ * numθ2 p i ψ =
      rhsC p i ψ * detA p i ψ := by
  simp only [detA, numθ5, numw5, numθ2, det3]
  ring

lemma mkSol_θ5 (p : Params) (i : Inputs) (ψ : Psychro) :
    (mkSol p i ψ).θ5 = numθ5 p i ψ / detA p i ψ := rfl

lemma mkSol_w5 (p : Params) (i : Inputs) (ψ : Psychro) :
    (mkSol p i ψ).w5 = numw5 p i ψ / detA p i ψ := rfl

lemma mkSol_θ2 (p : Params) (i : Inputs) (ψ : Psychro) :
    (mkSol p i ψ).θ2 = numθ2 p i ψ / detA p i ψ := rfl

lemma mkSol_θ1 (p : Params) (i : Inputs) (ψ : Psychro) :
    (mkSol p i ψ).θ1 =
      ((p.m - p.mo) * (numθ5 p i ψ / detA p i ψ) + p.mo * i.θo) / p.m := rfl

lemma mkSol_w1 (p : Params) (i : Inputs) (ψ : Psychro) :
    (mkSol p i ψ).w1 =
      ((p.m - p.mo) * (numw5 p i ψ / detA p i ψ) + p.mo * ψ.w i.θo i.φo) / p.m := rfl

lemma mkSol_w2 (p : Params) (i : Inputs) (ψ : Psychro) :
    (mkSol p i ψ).w2 = ψ.ws0 + ψ.ks * ((mkSol p i ψ).θ2 - ψ.θs0) := rfl

lemma mkSol_θ3 (p : Params) (i : Inputs) (ψ : Psychro) :
    (mkSol p i ψ).θ3 = p.β * (mkSol p i ψ).θ1 + (1 - p.β) * (mkSol p i ψ).θ2 := rfl

lemma mkSol_w3 (p : Params) (i : Inputs) (ψ : Psychro) :
    (mkSol p i ψ).w3 = p.β * (mkSol p i ψ).w1 + (1 - p.β) * (mkSol p i ψ).w2 := rfl

lemma mkSol_θ4 (p : Params) (i : Inputs) (ψ : Psychro) :
    (mkSol p i ψ).θ4 = (mkSol p i ψ).θ3 + (mkSol p i ψ).QsHC / (p.m * ca) := rfl

lemma mkSol_w4 (p : Params) (i : Inputs) (ψ : Psychro) :
    (mkSol p i ψ).w4 = (mkSol p i ψ).w3 := rfl

lemma mkSol_QtCC (p : Params) (i : Inputs) (ψ : Psychro) :
    (mkSol p i ψ).QtCC = p.Kθ * (i.θ5sp - numθ5 p i ψ / detA p i ψ) := rfl

lemma mkSol_QsHC (p : Params) (i : Inputs) (ψ : Psychro) :
    (mkSol p i ψ).QsHC = p.Kw * (ψ.w i.θ5sp i.φ5sp - numw5 p i ψ / detA p i ψ) := rfl

/-- The reduced first row holds at the Cramer values. -/
lemma rowA_div (p : Params) (i : Inputs) (ψ : Psychro) (hΔ : detA p i ψ ≠ 0) :
    coefA1 p i * (numθ5 p i ψ / detA p i ψ) + p.Kw * (numw5 p i ψ / detA p i ψ) +
      coefA3 p * (numθ2 p i ψ / detA p i ψ) = rhsA p i ψ := by
  have e : coefA1 p i * (numθ5 p i ψ / detA p i ψ) + p.Kw * (numw5 p i ψ / detA p i ψ) +
      coefA3 p * (numθ2 p i ψ / detA p i ψ) =
      (coefA1 p i * numθ5 p i ψ + p.Kw * numw5 p i ψ + coefA3 p * numθ2 p i ψ) /
        detA p i ψ := by ring
  rw [e, cramerA p i ψ, mul_div_cancel_right₀ _ hΔ]

/-- The reduced second row holds at the Cramer values. -/
lemma rowB_div (p : Params) (i : Inputs) (ψ : Psychro) (hΔ : detA p i ψ ≠ 0) :
    coefB2 p i * (numw5 p i ψ / detA p i ψ) +
      coefB3 p ψ * (numθ2 p i ψ / detA p i ψ) = rhsB p i ψ := by
  have e : coefB2 p i * (numw5 p i ψ / detA p i ψ) +
      coefB3 p ψ * (numθ2 p i ψ / detA p i ψ) =
      (coefB2 p i * numw5 p i ψ + coefB3 p ψ * numθ2 p i ψ) / detA p i ψ := by ring
  rw [e, cramerB p i ψ, mul_div_cancel_right₀ _ hΔ]

/-- The reduced third row holds at the Cramer values. -/
lemma rowC_div (p : Params) (i : Inputs) (ψ : Psychro) (hΔ : detA p i ψ ≠ 0) :
    coefC1 p * (numθ5 p i ψ / detA p i ψ) + coefC2 p * (numw5 p i ψ / detA p i ψ) +
      coefC3 p ψ * (numθ2 p i ψ / detA p i ψ) = rhsC p i ψ := by
  have e : coefC1 p * (numθ5 p i ψ / detA p i ψ) + coefC2 p * (numw5 p i ψ / detA p i ψ) +
      coefC3 p ψ * (numθ2 p i ψ / detA p i ψ) =
      (coefC1 p * numθ5 p i ψ + coefC2 p * numw5 p i ψ + coefC3 p ψ * numθ2 p i ψ) /
        detA p i ψ := by ring
  rw [e, cramerC p i ψ, mul_div_cancel_right₀ _ hΔ]

/-- The vector produced by the direct solve satisfies every equation of
the assembled system. -/
theorem linSys_mkSol (p : Params) (i : Inputs) (ψ : Psychro)
    (hm : p.m ≠ 0) (hΔ : detA p i ψ ≠ 0) : LinSys p i ψ (mkSol p i ψ) := by
  have hca : ca ≠ 0 := by norm_num [ca]
  have hA := rowA_div p i ψ hΔ
  have hB := rowB_div p i ψ hΔ
  have hC := rowC_div p i ψ hΔ
  simp only [coefA1, coefA3, rhsA] at hA
  simp only [coefB2, coefB3, rhsB] at hB
  simp only [coefC1, coefC2, coefC3, rhsC] at hC
  have hdm : ∀ X : ℚ, p.m * (X / p.m) = X := fun X => by field_simp
  have hmc : ∀ Y : ℚ, p.m * ca * (Y / (p.m * ca)) = Y := fun Y => by field_simp
  refine ⟨?_, ?_, ?_, ?_, ?_, ?_, ?_, ?_, ?_, ?_, ?_, ?_⟩
  · exact hdm ((p.m - p.mo) * (numθ5 p i ψ / detA p i ψ) + p.mo * i.θo)
  · exact hdm ((p.m - p.mo) * (numw5 p i ψ / detA p i ψ) + p.mo * ψ.w i.θo i.φo)
  · rw [mkSol_w2]
  · rw [mkSol_θ3]
  · rw [mkSol_w3]
  · rw [mkSol_QtCC, mkSol_θ3, mkSol_w3, mkSol_θ1, mkSol_w1, mkSol_w2, mkSol_θ2]
    linear_combination (1 - p.β) * ca * hdm ((p.m - p.mo) * (numθ5 p i ψ / detA p i ψ) +
        p.mo * i.θo) +
      (1 - p.β) * lv * hdm ((p.m - p.mo) * (numw5 p i ψ / detA p i ψ) +
        p.mo * ψ.w i.θo i.φo) - hC
  · rw [mkSol_θ4, mul_add]
    rw [hmc (mkSol p i ψ).QsHC]
  · rw [mkSol_w4]
  · rw [mkSol_θ4, mkSol_QsHC, mkSol_θ3, mkSol_θ1, mkSol_θ2, mkSol_θ5]
    linear_combination hA -
      hmc (p.Kw * (ψ.w i.θ5sp i.φ5sp - numw5 p i ψ / detA p i ψ)) -
      p.β * ca * hdm ((p.m - p.mo) * (numθ5 p i ψ / detA p i ψ) + p.mo * i.θo)
  · rw [mkSol_w4, mkSol_w3, mkSol_w1, mkSol_w2, mkSol_θ2, mkSol_w5]
    linear_combination hB -
      p.β * lv * hdm ((p.m - p.mo) * (numw5 p i ψ / detA p i ψ) + p.mo * ψ.w i.θo i.φo)
  · rw [mkSol_QtCC, mkSol_θ5]
  · rw [mkSol_QsHC, mkSol_w5]

/-- Any solution of the assembled system satisfies the reduced first row. -/
lemma rowA_of_linSys {p : Params} {i : Inputs} {ψ : Psychro} {x : Sol}
    (hx : LinSys p i ψ x) :
    coefA1 p i * x.θ5 + p.Kw * x.w5 + coefA3 p * x.θ2 = rhsA p i ψ := by
  obtain ⟨e1, e2, e3, e4, e5, e6, e7, e8, e9, e10, e11, e12⟩ := hx
  simp only [coefA1, coefA3, rhsA]
  linear_combination e9 + e7 + p.m * ca * e4 + p.β * ca * e1 + e12

/-- Any solution of the assembled system satisfies the reduced second row. -/
lemma rowB_of_linSys {p : Params} {i : Inputs} {ψ : Psychro} {x : Sol}
    (hx : LinSys p i ψ x) :
    coefB2 p i * x.w5 + coefB3 p ψ * x.θ2 = rhsB p i ψ := by
  obtain ⟨e1, e2, e3, e4, e5, e6, e7, e8, e9, e10, e11, e12⟩ := hx
  simp only [coefB2, coefB3, rhsB]
  linear_combination e10 + p.m * lv * e8 + p.m * lv * e5 + p.β * lv * e2 +
    p.m * lv * (1 - p.β) * e3

/-- Any solution of the assembled system satisfies the reduced third row. -/
lemma rowC_of_linSys {p : Params} {i : Inputs} {ψ : Psychro} {x : Sol}
    (hx : LinSys p i ψ x) :
    coefC1 p * x.θ5 + coefC2 p * x.w5 + coefC3 p ψ * x.θ2 = rhsC p i ψ := by
  obtain ⟨e1, e2, e3, e4, e5, e6, e7, e8, e9, e10, e11, e12⟩ := hx
  simp only [coefC1, coefC2, coefC3, rhsC]
  linear_combination e11 - e6 - p.m * ca * e4 - p.m * lv * e5 -
    p.m * lv * (1 - p.β) * e3 + (1 - p.β) * ca * e1 + (1 - p.β) * lv * e2

/-- With a nonsingular reduced matrix, the assembled system pins down the
three reduced unknowns to the Cramer values. -/
lemma reduced_unique {p : Params} {i : Inputs} {ψ : Psychro} {x : Sol}
    (hΔ : detA p i ψ ≠ 0) (hx : LinSys p i ψ x) :
    x.θ5 = numθ5 p i ψ / detA p i ψ ∧ x.w5 = numw5 p i ψ / detA p i ψ ∧
      x.θ2 = numθ2 p i ψ / detA p i ψ := by
  have rA := rowA_of_linSys hx
  have rB := rowB_of_linSys hx
  have rC := rowC_of_linSys hx
  refine ⟨?_, ?_, ?_⟩
  · rw [eq_div_iff hΔ]
    simp only [numθ5, detA, det3]
    linear_combination (coefB2 p i * coefC3 p ψ - coefB3 p ψ * coefC2 p) * rA -
      (p.Kw * coefC3 p ψ - coefA3 p * coefC2 p) * rB +
      (p.Kw * coefB3 p ψ - coefA3 p * coefB2 p i) * rC
  · rw [eq_div_iff hΔ]
    simp only [numw5, detA, det3]
    linear_combination (coefB3 p ψ * coefC1 p) * rA +
      (coefA1 p i * coefC3 p ψ - coefA3 p * coefC1 p) * rB +
      (-(coefA1 p i * coefB3 p ψ)) * rC
  · rw [eq_div_iff hΔ]
    simp only [numθ2, detA, det3]
    linear_combination (-(coefB2 p i * coefC1 p)) * rA +
      (-(coefA1 p i * coefC2 p - p.Kw * coefC1 p)) * rB +
      (coefA1 p i * coefB2 p i) * rC

/-- With nonzero flow and a nonsingular reduced matrix the assembled
system has no solution other than the Cramer one. -/
theorem linSys_unique {p : Params} {i : Inputs} {ψ : Psychro} {x : Sol}
    (hm : p.m ≠ 0) (hΔ : detA p i ψ ≠ 0) (hx : LinSys p i ψ x) :
    x = mkSol p i ψ := by
  obtain ⟨ht, hw, hs⟩ := reduced_unique hΔ hx
  obtain ⟨e1, e2, e3, e4, e5, e6, e7, e8, e9, e10, e11, e12⟩ := hx
  have hca : ca ≠ 0 := by norm_num [ca]
  have hθ5 : x.θ5 = (mkSol p i ψ).θ5 := by rw [mkSol_θ5]; exact ht
  have hw5 : x.w5 = (mkSol p i ψ).w5 := by rw [mkSol_w5]; exact hw
  have hθ2 : x.θ2 = (mkSol p i ψ).θ2 := by rw [mkSol_θ2]; exact hs
  have hθ1 : x.θ1 = (mkSol p i ψ).θ1 := by
    rw [mkSol_θ1, ← mkSol_θ5 p i ψ, ← hθ5, eq_div_iff hm]
    linear_combination e1
  have hw1 : x.w1 = (mkSol p i ψ).w1 := by
    rw [mkSol_w1, ← mkSol_w5 p i ψ, ← hw5, eq_div_iff hm]
    linear_combination e2
  have hw2 : x.w2 = (mkSol p i ψ).w2 := by
    rw [mkSol_w2]
    linear_combination e3 + ψ.ks * hθ2
  have hθ3 : x.θ3 = (mkSol p i ψ).θ3 := by
    rw [mkSol_θ3]
    linear_combination e4 + p.β * hθ1 + (1 - p.β) * hθ2
  have hw3 : x.w3 = (mkSol p i ψ).w3 := by
    rw [mkSol_w3]
    linear_combination e5 + p.β * hw1 + (1 - p.β) * hw2
  have hQsHC : x.QsHC = (mkSol p i ψ).QsHC := by
    rw [mkSol_QsHC, ← mkSol_w5 p i ψ]
    linear_combination e12 - p.Kw * hw5
  have hθ4 : x.θ4 = (mkSol p i ψ).θ4 := by
    have h7 : p.m * ca * (mkSol p i ψ).θ4 = p.m * ca * (mkSol p i ψ).θ3 +
        (mkSol p i ψ).QsHC := by
      rw [mkSol_θ4, mul_add, mul_div_cancel₀ _ (mul_ne_zero hm hca)]
    apply mul_left_cancel₀ (mul_ne_zero hm hca)
    linear_combination e7 - h7 + p.m * ca * hθ3 + hQsHC
  have hQt : x.QtCC = (mkSol p i ψ).QtCC := by
    rw [mkSol_QtCC, ← mkSol_θ5 p i ψ]
    linear_combination e11 - p.Kθ * hθ5
  have hw4 : x.w4 = (mkSol p i ψ).w4 := by
    rw [mkSol_w4]
    linear_combination e8 + hw3
  obtain ⟨y1, y2, y3, y4, y5, y6, y7, y8, y9, y10, y11, y12⟩ := x
  simp only at hθ1 hw1 hθ2 hw2 hθ3 hw3 hθ4 hw4 hθ5 hw5 hQt hQsHC
  rw [hθ1, hw1, hθ2, hw2, hθ3, hw3, hθ4, hw4, hθ5, hw5, hQt, hQsHC]

/-- Any vector returned by the direct solve satisfies the assembled
system. -/
theorem solveLin_linSys {p : Params} {i : Inputs} {ψ : Psychro} {x : Sol}
    (h : solveLin p i ψ = some x) : LinSys p i ψ x := by
  obtain ⟨hm, hΔ, hx⟩ := solveLin_cases h
  rw [hx]
  exact linSys_mkSol p i ψ hm hΔ

/-- Modelled from the spec: the 13-slot parameter/input vector held by a
model instance — parameters in slots 0–4 `(ṁ, ṁo, β, Kθ, Kw)`, inputs in
slots 5–12 `(θo, φo, θ5sp, φ5sp, ṁi, UA, QsBL, QlBL)`. -/
def packVec (p : Params) (i : Inputs) : Fin 13 → ℚ :=
  ![p.m, p.mo, p.β, p.Kθ, p.Kw, i.θo, i.φo, i.θ5sp, i.φ5sp, i.mi, i.UA,
    i.QsBL, i.QlBL]

/-- Parameters stored in slots 0–4 of a model vector. -/
def paramsOf (f : Fin 13 → ℚ) : Params := ⟨f 0, f 1, f 2, f 3, f 4⟩

/-- Inputs stored in slots 5–12 of a model vector. -/
def inputsOf (f : Fin 13 → ℚ) : Inputs :=
  ⟨f 5, f 6, f 7, f 8, f 9, f 10, f 11, f 12⟩

/-- Modelled from the spec: a constructed model instance (the missing
class `MxCcRhTzBl`), holding the construction-time `design` vector and
the mutable `actual` vector reused across solve calls. -/
structure MxCcRhTzBl where
  design : Fin 13 → ℚ
  actual : Fin 13 → ℚ

/-- Modelled from the spec: construction from a parameters tuple and an
inputs tuple; both vectors start equal. -/
def mkModel (p : Params) (i : Inputs) : MxCcRhTzBl := ⟨packVec p i, packVec p i⟩

/-- Modelled from the spec: overriding a single slot of the model's
`actual` vector between solve calls (the notebook's
`cool.actual[j] = value`). -/
def setActual (M : MxCcRhTzBl) (j : Fin 13) (v : ℚ) : MxCcRhTzBl :=
  { M with actual := Function.update M.actual j v }

/-- Modelled from the spec: the CAV entry point (`CAV_wd` of the missing
module) — writes the call's inputs into slots 5–12 of the actual vector,
then solves the linear system directly with the stored parameters; purely
linear, no outer search. -/
def CAV_wd (M : MxCcRhTzBl) (ψ : Psychro) (i : Inputs) :
    MxCcRhTzBl × Option Sol :=
  ({ M with actual := packVec (paramsOf M.actual) i },
   solveLin (paramsOf M.actual) i ψ)

/-- Modelled from the spec: the enumerated controlled-variable targets of
bypass control — zone humidity `φ5` or supply temperature `θS`. -/
inductive Target where
  | φ5 : Target
  | θS : Target
deriving DecidableEq

/-- Modelled from the spec: failure taxonomy of the root-finding
contract — no sign change over the bracket (no solution in the search
domain), a singular inner solve, or an exhausted iteration budget. -/
inductive SolveErr where
  | noBracket (fa fb : ℚ) : SolveErr
  | singular : SolveErr
  | noConverge : SolveErr
deriving DecidableEq

/-- Modelled from the spec: residual of the targeted variable at a trial
bypass factor — the inner linear solve re-run at that `β`, then target
value minus setpoint (for the humidity target the setpoint relative
humidity is converted to a humidity ratio at the zone setpoint
temperature). -/
def residualVBP (p : Params) (i : Inputs) (ψ : Psychro) (t : Target)
    (sp β : ℚ) : Option ℚ :=
  (solveLin { p with β := β } i ψ).map fun x =>
    match t with
    | .φ5 => x.w5 - ψ.w i.θ5sp sp
    | .θS => x.θ4 - sp

/-- Modelled from the spec: 1-D bisection with convergence tolerance and
iteration cap; a failed inner solve is reported as `singular`. -/
def bisect (f : ℚ → Option ℚ) (tol : ℚ) : ℚ → ℚ → Nat → Except SolveErr ℚ
  | _, _, 0 => .error .noConverge
  | a, b, n + 1 =>
    let mid := (a + b) / 2
    match f mid, f a with
    | some fmid, some fa =>
        if |fmid| ≤ tol then .ok mid
        else if fa * fmid < 0 then bisect f tol a mid n
        else bisect f tol mid b n
    | _, _ => .error .singular

/-- Modelled from the spec: the VBP entry point (`VBP_wd` of the missing
module) — fixed flow, searches the bypass factor over `(0, 1)` (bracket
`[0, 99/100]`) so that the named target reaches its setpoint, re-running
the linear solve at each trial `β`; on failure to bracket a root it
raises the distinguishable no-solution condition instead of a value. -/
def VBP_wd (M : MxCcRhTzBl) (ψ : Psychro) (t : Target) (sp : ℚ) (i : Inputs)
    (tol : ℚ) (n : Nat) : Except SolveErr ℚ :=
  let p := paramsOf M.actual
  match residualVBP p i ψ t sp 0, residualVBP p i ψ t sp (99 / 100) with
  | some fa, some fb =>
      if 0 < fa * fb then .error (.noBracket fa fb)
      else bisect (residualVBP p i ψ t sp) tol 0 (99 / 100) n
  | _, _ => .error .singular

/-- Modelled from the spec: typed invariant-violation report of the
feasibility layer, naming the broken invariant and the offending value. -/
inductive Violation where
  | bypassRange (β : ℚ) : Violation
  | flowRange (m : ℚ) : Violation
  | humidityNeg (w : ℚ) : Violation
  | aboveSat (w wsat : ℚ) : Violation
deriving DecidableEq

/-- The five internal node states of a solution vector, as
(temperature, humidity ratio) pairs. -/
def nodesOf (x : Sol) : List (ℚ × ℚ) :=
  [(x.θ1, x.w1), (x.θ2, x.w2), (x.θ3, x.w3), (x.θ4, x.w4), (x.θ5, x.w5)]

/-- First humidity violation in a list of node states: a negative
humidity ratio, or one above saturation at its node temperature. -/
def firstViolation (ψ : Psychro) : List (ℚ × ℚ) → Option Violation
  | [] => none
  | (θ, w) :: rest =>
    if w < 0 then some (.humidityNeg w)
    else if wsatLin ψ θ < w then some (.aboveSat w (wsatLin ψ θ))
    else firstViolation ψ rest

/-- Modelled from the spec: the feasibility/diagnostic layer — validates
a post-solve result (bypass factor within `(0,1)`, positive mass flow,
every humidity ratio nonnegative and below saturation at its
temperature); any violation surfaces as a typed failure instead of the
out-of-range vector. -/
def validate (ψ : Psychro) (p : Params) (x : Sol) : Except Violation Sol :=
  if ¬(0 < p.β ∧ p.β < 1) then .error (.bypassRange p.β)
  else if ¬0 < p.m then .error (.flowRange p.m)
  else
    match firstViolation ψ (nodesOf x) with
    | some v => .error v
    | none => .ok x

/-- Rational stand-in for the moist-air humidity-ratio property function
(a library dependency outside the core): an affine surrogate matching
realistic values near the scenario states, with a linearised saturation
line about 10 °C. -/
def ψ0 : Psychro :=
  ⟨fun θ φ => φ * (3 / 2000 * θ - 18 / 1000), 10, 19 / 2500, 1 / 2000⟩

lemma paramsOf_packVec (p : Params) (i : Inputs) : paramsOf (packVec p i) = p := rfl

lemma inputsOf_packVec (p : Params) (i : Inputs) : inputsOf (packVec p i) = i := rfl

/-- Example-scenario parameters `(ṁ=3.1, ṁo=1, β=0.16, Kθ=1e10, Kw=1e10)`. -/
def p2 : Params := ⟨31 / 10, 1, 4 / 25, 10 ^ 10, 10 ^ 10⟩

/-- Example-scenario inputs
`(θo=32, φo=0.5, θ5sp=26, φ5sp=0.5, ṁi=1.35, UA=675, QsBL=34000, QlBL=4000)`. -/
def i2 : Inputs := ⟨32, 1 / 2, 26, 1 / 2, 27 / 20, 675, 34000, 4000⟩

/-- Small well-posed parameter set used to instantiate general theorems. -/
def pw : Params := ⟨2, 1, 1 / 2, 2, 3⟩

/-- Small input set used to instantiate general theorems. -/
def iw : Inputs := ⟨30, 1 / 2, 25, 1 / 2, 1, 10, 100, 50⟩

/-- The small parameter set with both gains at the ideal-control sentinel. -/
def ps : Params := ⟨2, 1, 1 / 2, 10 ^ 10, 10 ^ 10⟩

/-- The small parameter set with both gains zero (controllers disabled). -/
def pz : Params := ⟨2, 1, 1 / 2, 0, 0⟩

lemma detA_pw : detA pw iw ψ0 ≠ 0 := by
  norm_num [detA, det3, coefA1, coefA3, coefB2, coefB3, coefC1, coefC2, coefC3,
    pw, iw, ψ0, ca, lv]

lemma solveLin_pw : solveLin pw iw ψ0 = some (mkSol pw iw ψ0) := by
  rw [solveLin, if_neg]
  push_neg
  exact ⟨by norm_num [pw], detA_pw⟩

lemma solveLin_ps : solveLin ps iw ψ0 = some (mkSol ps iw ψ0) := by
  rw [solveLin, if_neg]
  push_neg
  refine ⟨by norm_num [ps], ?_⟩
  norm_num [detA, det3, coefA1, coefA3, coefB2, coefB3, coefC1, coefC2, coefC3,
    ps, iw, ψ0, ca, lv]

lemma solveLin_pz : solveLin pz iw ψ0 = some (mkSol pz iw ψ0) := by
  rw [solveLin, if_neg]
  push_neg
  refine ⟨by norm_num [pz], ?_⟩
  norm_num [detA, det3, coefA1, coefA3, coefB2, coefB3, coefC1, coefC2, coefC3,
    pz, iw, ψ0, ca, lv]

/-- C2: at the example-scenario parameters and inputs solved in CAV mode
with both gains at the ideal sentinel, the returned solution has zone
temperature within `1/1000` of the 26 °C setpoint and zone humidity
within `1/10000` of the humidity ratio of the setpoint state
(26 °C, 50 %), i.e. the zone relative humidity tracks 0.5. -/
theorem C2_cav_scenario : ∃ x, (CAV_wd (mkModel p2 i2) ψ0 i2).2 = some x ∧
    |x.θ5 - 26| ≤ 1 / 1000 ∧ |x.w5 - ψ0.w 26 (1 / 2)| ≤ 1 / 10000 := by
  have hΔ : detA p2 i2 ψ0 ≠ 0 := by
    norm_num [detA, det3, coefA1, coefA3, coefB2, coefB3, coefC1, coefC2, coefC3,
      p2, i2, ψ0, ca, lv]
  have hm : p2.m ≠ 0 := by norm_num [p2]
  have hsolve : (CAV_wd (mkModel p2 i2) ψ0 i2).2 = some (mkSol p2 i2 ψ0) := by
    show solveLin (paramsOf (packVec p2 i2)) i2 ψ0 = _
    rw [paramsOf_packVec, solveLin, if_neg (by push_neg; exact ⟨hm, hΔ⟩)]
  refine ⟨mkSol p2 i2 ψ0, hsolve, ?_, ?_⟩
  · rw [mkSol_θ5]
    norm_num [detA, numθ5, det3, coefA1, coefA3, coefB2, coefB3, coefC1, coefC2,
      coefC3, rhsA, rhsB, rhsC, p2, i2, ψ0, ca, lv, abs_le]
  · rw [mkSol_w5]
    norm_num [detA, numw5, det3, coefA1, coefA3, coefB2, coefB3, coefC1, coefC2,
      coefC3, rhsA, rhsB, rhsC, p2, i2, ψ0, ca, lv, abs_le]

/-- C3: in any solved state, an ideal-sentinel gain forces the controlled
variable within tolerance of its setpoint (tolerance `1/1000` once the
corresponding actuator power is within its physical range `≤ 10^7` W,
since the tracking error is exactly the power divided by the gain), and a
zero gain forces the corresponding actuator output to zero. -/
theorem C3_gain_behavior {p : Params} {i : Inputs} {ψ : Psychro} {x : Sol}
    (h : solveLin p i ψ = some x) :
    (p.Kθ = 10 ^ 10 → |x.QtCC| ≤ 10 ^ 7 → |x.θ5 - i.θ5sp| ≤ 1 / 1000) ∧
    (p.Kw = 10 ^ 10 → |x.QsHC| ≤ 10 ^ 7 → |x.w5 - ψ.w i.θ5sp i.φ5sp| ≤ 1 / 1000) ∧
    (p.Kθ = 0 → x.QtCC = 0) ∧
    (p.Kw = 0 → x.QsHC = 0) := by
  obtain ⟨e1, e2, e3, e4, e5, e6, e7, e8, e9, e10, e11, e12⟩ := solveLin_linSys h
  refine ⟨?_, ?_, ?_, ?_⟩
  · intro hK hQ
    have h5 : x.θ5 - i.θ5sp = -x.QtCC / 10 ^ 10 := by
      rw [hK] at e11
      rw [eq_div_iff (by norm_num : (10 ^ 10 : ℚ) ≠ 0)]
      linear_combination e11
    rw [h5, abs_div, abs_neg, abs_of_pos (by norm_num : (0:ℚ) < 10 ^ 10),
      div_le_iff (by norm_num : (0:ℚ) < 10 ^ 10)]
    calc |x.QtCC| ≤ 10 ^ 7 := hQ
    _ ≤ 1 / 1000 * 10 ^ 10 := by norm_num
  · intro hK hQ
    have h5 : x.w5 - ψ.w i.θ5sp i.φ5sp = -x.QsHC / 10 ^ 10 := by
      rw [hK] at e12
      rw [eq_div_iff (by norm_num : (10 ^ 10 : ℚ) ≠ 0)]
      linear_combination e12
    rw [h5, abs_div, abs_neg, abs_of_pos (by norm_num : (0:ℚ) < 10 ^ 10),
      div_le_iff (by norm_num : (0:ℚ) < 10 ^ 10)]
    calc |x.QsHC| ≤ 10 ^ 7 := hQ
    _ ≤ 1 / 1000 * 10 ^ 10 := by norm_num
  · intro hK
    rw [hK, zero_mul] at e11
    exact e11
  · intro hK
    rw [hK, zero_mul] at e12
    exact e12

/-- Witness for C3: the gain behaviour at concrete configurations — the
sentinel gains track both setpoints within tolerance, and the zero gains
force both actuator powers to zero. -/
theorem C3_gain_behavior_witness :
    (|(mkSol ps iw ψ0).θ5 - iw.θ5sp| ≤ 1 / 1000 ∧
     |(mkSol ps iw ψ0).w5 - ψ0.w iw.θ5sp iw.φ5sp| ≤ 1 / 1000) ∧
    ((mkSol pz iw ψ0).QtCC = 0 ∧ (mkSol pz iw ψ0).QsHC = 0) := by
  have hs := C3_gain_behavior solveLin_ps
  have hz := C3_gain_behavior solveLin_pz
  refine ⟨⟨hs.1 (by norm_num [ps]) ?_, hs.2.1 (by norm_num [ps]) ?_⟩,
    hz.2.2.1 (by norm_num [pz]), hz.2.2.2 (by norm_num [pz])⟩
  · rw [mkSol_QtCC]
    norm_num [detA, numθ5, det3, coefA1, coefA3, coefB2, coefB3, coefC1, coefC2,
      coefC3, rhsA, rhsB, rhsC, ps, iw, ψ0, ca, lv, abs_le]
  · rw [mkSol_QsHC]
    norm_num [detA, numw5, det3, coefA1, coefA3, coefB2, coefB3, coefC1, coefC2,
      coefC3, rhsA, rhsB, rhsC, ps, iw, ψ0, ca, lv, abs_le]

/-- Net enthalpy residual of the mixing block: recirculated plus outdoor
stream enthalpy in, mixed-stream enthalpy out. -/
def resMR (p : Params) (i : Inputs) (ψ : Psychro) (x : Sol) : ℚ :=
  p.m * (ca * x.θ1 + lv * x.w1) - (p.m - p.mo) * (ca * x.θ5 + lv * x.w5) -
    p.mo * (ca * i.θo + lv * ψ.w i.θo i.φo)

/-- Net enthalpy residual of the cooling coil with bypass: enthalpy
change across the block minus the coil power. -/
def resCC (p : Params) (x : Sol) : ℚ :=
  p.m * (ca * x.θ3 + lv * x.w3) - p.m * (ca * x.θ1 + lv * x.w1) - x.QtCC

/-- Net enthalpy residual of the heating coil: enthalpy change across
the block minus the reheat power. -/
def resHC (p : Params) (x : Sol) : ℚ :=
  p.m * (ca * x.θ4 + lv * x.w4) - p.m * (ca * x.θ3 + lv * x.w3) - x.QsHC

/-- Net enthalpy residual of the thermal zone with building load: supply
air enthalpy in plus envelope, infiltration and auxiliary gains, zone
exhaust enthalpy out. -/
def resTZ (p : Params) (i : Inputs) (ψ : Psychro) (x : Sol) : ℚ :=
  p.m * (ca * x.θ5 + lv * x.w5) - p.m * (ca * x.θ4 + lv * x.w4) -
    (i.QsBL + i.QlBL + (i.UA + i.mi * ca) * (i.θo - x.θ5) +
      i.mi * lv * (ψ.w i.θo i.φo - x.w5))

/-- Net enthalpy residual of the assembled system: the sum of the four
block residuals. -/
def resSys (p : Params) (i : Inputs) (ψ : Psychro) (x : Sol) : ℚ :=
  resMR p i ψ x + resCC p x + resHC p x + resTZ p i ψ x

/-- C4: for every solution vector returned by the solve, energy is
conserved exactly — the net enthalpy residual of each block (mixing,
cooling coil, heating coil, thermal zone) and of the assembled system is
zero. -/
theorem C4_energy_conservation {p : Params} {i : Inputs} {ψ : Psychro} {x : Sol}
    (h : solveLin p i ψ = some x) :
    resMR p i ψ x = 0 ∧ resCC p x = 0 ∧ resHC p x = 0 ∧ resTZ p i ψ x = 0 ∧
      resSys p i ψ x = 0 := by
  obtain ⟨e1, e2, e3, e4, e5, e6, e7, e8, e9, e10, e11, e12⟩ := solveLin_linSys h
  have h1 : resMR p i ψ x = 0 := by
    unfold resMR
    linear_combination ca * e1 + lv * e2
  have h2 : resCC p x = 0 := by
    unfold resCC
    linear_combination -e6
  have h3 : resHC p x = 0 := by
    unfold resHC
    linear_combination e7 + p.m * lv * e8
  have h4 : resTZ p i ψ x = 0 := by
    unfold resTZ
    linear_combination e9 + e10
  exact ⟨h1, h2, h3, h4, by unfold resSys; rw [h1, h2, h3, h4]; ring⟩

/-- Witness for C4: the block and system enthalpy residuals vanish at a
concrete solved configuration. -/
theorem C4_energy_conservation_witness :
    resMR pw iw ψ0 (mkSol pw iw ψ0) = 0 ∧ resCC pw (mkSol pw iw ψ0) = 0 ∧
    resHC pw (mkSol pw iw ψ0) = 0 ∧ resTZ pw iw ψ0 (mkSol pw iw ψ0) = 0 ∧
    resSys pw iw ψ0 (mkSol pw iw ψ0) = 0 :=
  C4_energy_conservation solveLin_pw

/-- C8: in every solved state, the heating block leaves the humidity
ratio unchanged and raises the temperature by exactly the reheat power
divided by mass flow times specific heat. -/
theorem C8_heating {p : Params} {i : Inputs} {ψ : Psychro} {x : Sol}
    (h : solveLin p i ψ = some x) :
    x.w4 = x.w3 ∧ x.θ4 = x.θ3 + x.QsHC / (p.m * ca) := by
  obtain ⟨hm, hΔ, rfl⟩ := solveLin_cases h
  exact ⟨mkSol_w4 p i ψ, mkSol_θ4 p i ψ⟩

/-- Witness for C8: the heating-block relations at a concrete solved
configuration. -/
theorem C8_heating_witness :
    (mkSol pw iw ψ0).w4 = (mkSol pw iw ψ0).w3 ∧
    (mkSol pw iw ψ0).θ4 = (mkSol pw iw ψ0).θ3 +
      (mkSol pw iw ψ0).QsHC / (pw.m * ca) :=
  C8_heating solveLin_pw

/-- C10: with the humidity-controller gain at zero, the CAV solve is
independent of the zone humidity setpoint — changing only `φ5sp` leaves
the whole returned solution vector unchanged. -/
theorem C10_Kw_zero_noninterference (p : Params) (i : Inputs) (ψ : Psychro)
    (v : ℚ) (hKw : p.Kw = 0) :
    (CAV_wd (mkModel p i) ψ { i with φ5sp := v }).2 =
      (CAV_wd (mkModel p i) ψ i).2 := by
  show solveLin (paramsOf (packVec p i)) { i with φ5sp := v } ψ =
    solveLin (paramsOf (packVec p i)) i ψ
  rw [paramsOf_packVec]
  have hdet : detA p { i with φ5sp := v } ψ = detA p i ψ := rfl
  have h1 : numθ5 p { i with φ5sp := v } ψ = numθ5 p i ψ := by
    simp only [numθ5, det3, rhsA, rhsB, rhsC, coefA1, coefA3, coefB2, coefB3,
      coefC1, coefC2, coefC3, hKw]
    ring
  have h2 : numw5 p { i with φ5sp := v } ψ = numw5 p i ψ := by
    simp only [numw5, det3, rhsA, rhsB, rhsC, coefA1, coefA3, coefB2, coefB3,
      coefC1, coefC2, coefC3, hKw]
    ring
  have h3 : numθ2 p { i with φ5sp := v } ψ = numθ2 p i ψ := by
    simp only [numθ2, det3, rhsA, rhsB, rhsC, coefA1, coefA3, coefB2, coefB3,
      coefC1, coefC2, coefC3, hKw]
    ring
  have hmk : mkSol p { i with φ5sp := v } ψ = mkSol p i ψ := by
    simp only [mkSol, h1, h2, h3, hdet, hKw, Sol.mk.injEq, zero_mul, zero_div]
  simp only [solveLin, hdet, hmk]

/-- The small Kw = 0 parameter set for the C10 witness. -/
def pk : Params := ⟨2, 1, 1 / 2, 2, 0⟩

/-- Witness for C10: at a concrete `Kw = 0` configuration, two CAV calls
whose inputs differ only in the humidity setpoint return the same
solution. -/
theorem C10_Kw_zero_noninterference_witness :
    (CAV_wd (mkModel pk iw) ψ0 { iw with φ5sp := 9 / 10 }).2 =
      (CAV_wd (mkModel pk iw) ψ0 iw).2 :=
  C10_Kw_zero_noninterference pk iw ψ0 (9 / 10) (by norm_num [pk])

/-- Degenerate parameter set for C5: nonzero flow, finite gains, but
bypass factor 1 (no coil contact), which makes the assembled matrix
singular. -/
def pc5 : Params := ⟨1, 0, 1, 1, 1⟩

/-- All-zero inputs used with the degenerate C5 configuration. -/
def ic5 : Inputs := ⟨0, 0, 0, 0, 0, 0, 0, 0⟩

/-- First solution of the degenerate C5 system. -/
def xc1 : Sol := ⟨0, 0, -26 / 5, 0, 0, 0, 0, 0, 0, 0, 0, 0⟩

/-- Second solution of the degenerate C5 system, differing in the
apparatus-dew-point state. -/
def xc2 : Sol := ⟨0, 0, -21 / 5, 1 / 2000, 0, 0, 0, 0, 0, 0, 0, 0⟩

/-- Counterexample to C5 as stated: a parameter set with nonzero mass
flow and finite gains whose assembled system has two distinct
solutions — at bypass factor 1 the apparatus-dew-point state is
unconstrained. -/
theorem C5_counterexample :
    pc5.m ≠ 0 ∧ LinSys pc5 ic5 ψ0 xc1 ∧ LinSys pc5 ic5 ψ0 xc2 ∧ xc1 ≠ xc2 := by
  refine ⟨by norm_num [pc5], ?_, ?_, ?_⟩
  · norm_num [LinSys, pc5, ic5, ψ0, ca, lv, xc1]
  · norm_num [LinSys, pc5, ic5, ψ0, ca, lv, xc2]
  · norm_num [xc1, xc2, Sol.mk.injEq]

/-- C5 (amended): for every parameter set with nonzero mass flow whose
reduced assembled matrix is nonsingular, the assembled linear system of
block balances and controller equations has exactly one solution. -/
theorem C5_unique_solution (p : Params) (i : Inputs) (ψ : Psychro)
    (hm : p.m ≠ 0) (hΔ : detA p i ψ ≠ 0) : ∃! x, LinSys p i ψ x :=
  ⟨mkSol p i ψ, linSys_mkSol p i ψ hm hΔ, fun _ hy => linSys_unique hm hΔ hy⟩

/-- Witness for C5: a concrete well-posed configuration with a unique
solution. -/
theorem C5_unique_solution_witness :
    (pw.m ≠ 0 ∧ detA pw iw ψ0 ≠ 0) ∧ ∃! x, LinSys pw iw ψ0 x :=
  ⟨⟨by norm_num [pw], detA_pw⟩,
   C5_unique_solution pw iw ψ0 (by norm_num [pw]) detA_pw⟩

/-- C9: overriding one slot of a model's `actual` vector changes exactly
that slot (and not the `design` vector), and a CAV solve's returned
vector depends only on the stored parameter slots and the inputs passed
to the call — it is independent of any other state, hence of prior
calls. -/
theorem C9_mutation_frame :
    (∀ (M : MxCcRhTzBl) (j : Fin 13) (v : ℚ),
      (setActual M j v).actual j = v ∧
      (∀ k, k ≠ j → (setActual M j v).actual k = M.actual k) ∧
      (setActual M j v).design = M.design) ∧
    (∀ (M1 M2 : MxCcRhTzBl) (ψ : Psychro) (i : Inputs),
      paramsOf M1.actual = paramsOf M2.actual →
      (CAV_wd M1 ψ i).2 = (CAV_wd M2 ψ i).2) := by
  constructor
  · intro M j v
    simp only [setActual]
    exact ⟨Function.update_same j v M.actual,
      fun k hk => Function.update_noteq hk v M.actual, trivial⟩
  · intro M1 M2 ψ i h
    show solveLin (paramsOf M1.actual) i ψ = solveLin (paramsOf M2.actual) i ψ
    rw [h]

/-- Witness for C9: writing slot 4 (the `Kw` slot) of a concrete model
changes that slot only, and a solve after an input-slot write returns
the same vector as one from the fresh model. -/
theorem C9_mutation_frame_witness :
    (setActual (mkModel pw iw) 4 7).actual 4 = 7 ∧
    (setActual (mkModel pw iw) 4 7).actual 0 = (mkModel pw iw).actual 0 ∧
    (setActual (mkModel pw iw) 4 7).design = (mkModel pw iw).design ∧
    (CAV_wd (setActual (mkModel pw iw) 7 99) ψ0 iw).2 =
      (CAV_wd (mkModel pw iw) ψ0 iw).2 := by
  refine ⟨(C9_mutation_frame.1 (mkModel pw iw) 4 7).1,
    (C9_mutation_frame.1 (mkModel pw iw) 4 7).2.1 0 (by decide),
    (C9_mutation_frame.1 (mkModel pw iw) 4 7).2.2,
    C9_mutation_frame.2 _ _ ψ0 iw rfl⟩

lemma firstViolation_eq_none {ψ : Psychro} {L : List (ℚ × ℚ)}
    (h : firstViolation ψ L = none) :
    ∀ pr ∈ L, 0 ≤ pr.2 ∧ pr.2 ≤ wsatLin ψ pr.1 := by
  induction L with
  | nil => intro pr hpr; simp at hpr
  | cons hd tl ih =>
    obtain ⟨θ, w⟩ := hd
    rw [firstViolation] at h
    split_ifs at h with h1 h2
    intro pr hpr
    rcases List.mem_cons.1 hpr with hh | htl
    · rw [hh]
      exact ⟨not_lt.1 h1, not_lt.1 h2⟩
    · exact ih h pr htl

lemma firstViolation_humidityNeg {ψ : Psychro} {L : List (ℚ × ℚ)} {w : ℚ}
    (h : firstViolation ψ L = some (.humidityNeg w)) :
    w < 0 ∧ ∃ θ, (θ, w) ∈ L := by
  induction L with
  | nil => simp [firstViolation] at h
  | cons hd tl ih =>
    obtain ⟨θ, w0⟩ := hd
    rw [firstViolation] at h
    split_ifs at h with h1 h2
    · have hw : Violation.humidityNeg w0 = Violation.humidityNeg w :=
        Option.some_injective _ h
      rw [Violation.humidityNeg.injEq] at hw
      subst hw
      exact ⟨h1, θ, List.mem_cons_self _ _⟩
    · have := Option.some_injective _ h
      simp at this
    · obtain ⟨hw, θ1, hmem⟩ := ih h
      exact ⟨hw, θ1, List.mem_cons_of_mem _ hmem⟩

lemma firstViolation_aboveSat {ψ : Psychro} {L : List (ℚ × ℚ)} {w ws : ℚ}
    (h : firstViolation ψ L = some (.aboveSat w ws)) :
    ws < w ∧ ∃ θ, (θ, w) ∈ L ∧ ws = wsatLin ψ θ := by
  induction L with
  | nil => simp [firstViolation] at h
  | cons hd tl ih =>
    obtain ⟨θ, w0⟩ := hd
    rw [firstViolation] at h
    split_ifs at h with h1 h2
    · have := Option.some_injective _ h
      simp at this
    · have hw : Violation.aboveSat w0 (wsatLin ψ (θ, w0).1) = Violation.aboveSat w ws :=
        Option.some_injective _ h
      rw [Violation.aboveSat.injEq] at hw
      obtain ⟨hw1, hw2⟩ := hw
      subst hw1
      refine ⟨hw2 ▸ h2, θ, List.mem_cons_self _ _, hw2.symm⟩
    · obtain ⟨hws, θ1, hmem, hsat⟩ := ih h
      exact ⟨hws, θ1, List.mem_cons_of_mem _ hmem, hsat⟩

lemma firstViolation_ne_bypass {ψ : Psychro} {L : List (ℚ × ℚ)} {b : ℚ} :
    firstViolation ψ L ≠ some (.bypassRange b) := by
  induction L with
  | nil => simp [firstViolation]
  | cons hd tl ih =>
    obtain ⟨θ, w0⟩ := hd
    rw [firstViolation]
    split_ifs <;> simp_all

lemma firstViolation_ne_flow {ψ : Psychro} {L : List (ℚ × ℚ)} {m1 : ℚ} :
    firstViolation ψ L ≠ some (.flowRange m1) := by
  induction L with
  | nil => simp [firstViolation]
  | cons hd tl ih =>
    obtain ⟨θ, w0⟩ := hd
    rw [firstViolation]
    split_ifs <;> simp_all

/-- C7: the feasibility layer passes a vector through unchanged exactly
when the bypass factor lies in `(0,1)`, the mass flow is positive, and
every node humidity ratio is nonnegative and at most saturation at its
temperature; every typed failure names the broken invariant together
with the offending value, so an out-of-range vector is never returned
silently. -/
theorem C7_feasibility (ψ : Psychro) (p : Params) (x : Sol) :
    (∀ y, validate ψ p x = .ok y →
      y = x ∧ (0 < p.β ∧ p.β < 1) ∧ 0 < p.m ∧
        ∀ pr ∈ nodesOf x, 0 ≤ pr.2 ∧ pr.2 ≤ wsatLin ψ pr.1) ∧
    (∀ b, validate ψ p x = .error (.bypassRange b) →
      b = p.β ∧ ¬(0 < b ∧ b < 1)) ∧
    (∀ m1, validate ψ p x = .error (.flowRange m1) → m1 = p.m ∧ ¬0 < m1) ∧
    (∀ w, validate ψ p x = .error (.humidityNeg w) →
      w < 0 ∧ ∃ θ, (θ, w) ∈ nodesOf x) ∧
    (∀ w ws, validate ψ p x = .error (.aboveSat w ws) →
      ws < w ∧ ∃ θ, (θ, w) ∈ nodesOf x ∧ ws = wsatLin ψ θ) := by
  unfold validate
  split_ifs with hβ hm
  · cases hfv : firstViolation ψ (nodesOf x) with
    | none =>
      simp only [hfv]
      refine ⟨fun y hy => ?_, fun b hb => by simp at hb,
        fun m1 hm1 => by simp at hm1, fun w hw => by simp at hw,
        fun w ws hws => by simp at hws⟩
      have hyx : x = y := Except.ok.inj hy
      exact ⟨hyx.symm, hβ, hm, firstViolation_eq_none hfv⟩
    | some v =>
      simp only [hfv]
      refine ⟨fun y hy => by simp at hy, fun b hb => ?_, fun m1 hm1 => ?_,
        fun w hw => ?_, fun w ws hws => ?_⟩
      · rw [Except.error.injEq] at hb
        subst hb
        exact absurd hfv firstViolation_ne_bypass
      · rw [Except.error.injEq] at hm1
        subst hm1
        exact absurd hfv firstViolation_ne_flow
      · rw [Except.error.injEq] at hw
        subst hw
        exact firstViolation_humidityNeg hfv
      · rw [Except.error.injEq] at hws
        subst hws
        exact firstViolation_aboveSat hfv
  · refine ⟨fun y hy => by simp at hy, fun b hb => by simp at hb,
      fun m1 hm1 => ?_, fun w hw => by simp at hw,
      fun w ws hws => by simp at hws⟩
    simp only [Except.error.injEq, Violation.flowRange.injEq] at hm1
    subst hm1
    exact ⟨rfl, hm⟩
  · refine ⟨fun y hy => by simp at hy, fun b hb => ?_,
      fun m1 hm1 => by simp at hm1, fun w hw => by simp at hw,
      fun w ws hws => by simp at hws⟩
    simp only [Except.error.injEq, Violation.bypassRange.injEq] at hb
    subst hb
    exact ⟨rfl, hβ⟩

/-- Out-of-range parameter set (bypass factor 2) for the C7 witness. -/
def pb : Params := ⟨1, 0, 2, 0, 0⟩

/-- Witness for C7: at a concrete out-of-range configuration the layer
reports the bypass-range violation with the offending value. -/
theorem C7_feasibility_witness :
    (2 : ℚ) = pb.β ∧ ¬((0 : ℚ) < 2 ∧ (2 : ℚ) < 1) :=
  (C7_feasibility ψ0 pb xc1).2.1 2 (by norm_num [validate, pb])

/-- One-step unfolding of the bisection at a successor fuel value. -/
lemma bisect_succ (f : ℚ → Option ℚ) (tol a b : ℚ) (n : ℕ) :
    bisect f tol a b (n + 1) =
      match f ((a + b) / 2), f a with
      | some fmid, some fa =>
          if |fmid| ≤ tol then .ok ((a + b) / 2)
          else if fa * fmid < 0 then bisect f tol a ((a + b) / 2) n
          else bisect f tol ((a + b) / 2) b n
      | _, _ => .error .singular := rfl

/-- C1 (amended): at fixed supply flow, whenever the supply-temperature
residual keeps one strict sign at both bracket endpoints — as in the
documented infeasible case — the VBP solve with target `θS` returns the
explicit no-solution (bracketing) failure, not a bypass factor. -/
theorem C1_theta_s_no_bracket (M : MxCcRhTzBl) (ψ : Psychro) (sp : ℚ)
    (i : Inputs) (tol : ℚ) (n : ℕ) (fa fb : ℚ)
    (ha : residualVBP (paramsOf M.actual) i ψ .θS sp 0 = some fa)
    (hb : residualVBP (paramsOf M.actual) i ψ .θS sp (99 / 100) = some fb)
    (hs : 0 < fa * fb) :
    VBP_wd M ψ .θS sp i tol n = .error (.noBracket fa fb) := by
  simp only [VBP_wd, ha, hb]
  rw [if_pos hs]

/-- Documented infeasible VBP configuration: supply flow forced to 3.162,
humidity controller off, temperature controller at the ideal sentinel. -/
def pd : Params := ⟨1581 / 500, 1, 4 / 25, 10 ^ 10, 0⟩

/-- Witness for C1: at the documented configuration (`θ4sp = 11.77`,
`ṁ = 3.162`) both endpoint residuals are negative, and the VBP solve
returns the no-solution failure carrying them. -/
theorem C1_theta_s_no_bracket_witness :
    residualVBP pd i2 ψ0 .θS (1177 / 100) 0 =
      some (-3848994712842989 / 10540006741963700) ∧
    residualVBP pd i2 ψ0 .θS (1177 / 100) (99 / 100) =
      some (-115605494659481733 / 316576643606618900) ∧
    VBP_wd (mkModel pd i2) ψ0 .θS (1177 / 100) i2 (1 / 1000) 60 =
      .error (.noBracket (-3848994712842989 / 10540006741963700)
        (-115605494659481733 / 316576643606618900)) := by
  have ha : residualVBP pd i2 ψ0 .θS (1177 / 100) 0 =
      some (-3848994712842989 / 10540006741963700) := by
    norm_num [residualVBP, solveLin, mkSol, detA, numθ5, numw5, numθ2, det3, coefA1, coefA3, coefB2, coefB3,
      coefC1, coefC2, coefC3, rhsA, rhsB, rhsC, pd, i2, ψ0, ca, lv]
  have hb : residualVBP pd i2 ψ0 .θS (1177 / 100) (99 / 100) =
      some (-115605494659481733 / 316576643606618900) := by
    norm_num [residualVBP, solveLin, mkSol, detA, numθ5, numw5, numθ2, det3, coefA1, coefA3, coefB2, coefB3,
      coefC1, coefC2, coefC3, rhsA, rhsB, rhsC, pd, i2, ψ0, ca, lv]
  exact ⟨ha, hb, C1_theta_s_no_bracket (mkModel pd i2) ψ0 (1177 / 100) i2
    (1 / 1000) 60 _ _ ha hb (by norm_num)⟩

/-- The exactly-attainable supply temperature at β = 99/200 in the
documented configuration. -/
def spstar : ℚ := 3667813253008043152 / 321601960101590615

/-- Counterexample to C1 as stated: a setpoint inside the (degenerate)
attainable range of the supply temperature at fixed flow for which the
VBP solve with target `θS` returns a bypass factor instead of the
no-solution failure. -/
theorem C1_counterexample :
    VBP_wd (mkModel pd i2) ψ0 .θS spstar i2 (1 / 1000) 5 = .ok (99 / 200) := by
  have ha : residualVBP pd i2 ψ0 .θS spstar 0 =
      some (-25415621875865936995280 / 12864086632635696151317793513) := by
    norm_num [residualVBP, solveLin, mkSol, detA, numθ5, numw5, numθ2, det3, coefA1, coefA3, coefB2, coefB3,
      coefC1, coefC2, coefC3, rhsA, rhsB, rhsC, pd, i2, ψ0, ca, lv, spstar]
  have hb : residualVBP pd i2 ψ0 .θS spstar (99 / 100) =
      some (1452321250049482114016000 / 386382045944103693099340539361) := by
    norm_num [residualVBP, solveLin, mkSol, detA, numθ5, numw5, numθ2, det3, coefA1, coefA3, coefB2, coefB3,
      coefC1, coefC2, coefC3, rhsA, rhsB, rhsC, pd, i2, ψ0, ca, lv, spstar]
  have hmid : residualVBP pd i2 ψ0 .θS spstar (99 / 200) = some 0 := by
    norm_num [residualVBP, solveLin, mkSol, detA, numθ5, numw5, numθ2, det3, coefA1, coefA3, coefB2, coefB3,
      coefC1, coefC2, coefC3, rhsA, rhsB, rhsC, pd, i2, ψ0, ca, lv, spstar]
  have hmide : ((0 : ℚ) + 99 / 100) / 2 = 99 / 200 := by norm_num
  simp only [VBP_wd, mkModel, paramsOf_packVec, ha, hb]
  rw [if_neg (by norm_num), show (5 : ℕ) = 4 + 1 from rfl, bisect_succ, hmide,
    hmid, ha]
  norm_num

/-- Default VBP parameter set (supply flow 3.1, outdoor flow 1,
temperature gain at the ideal sentinel, humidity controller off); the
bypass slot is overridden by the search. -/
def p6 : Params := ⟨31 / 10, 1, 4 / 25, 10 ^ 10, 0⟩

lemma detA_p6 (b : ℚ) : detA { p6 with β := b } i2 ψ0 =
    (1 - b) * (344323420458538560000 - 162489696808053888000 * b) := by
  norm_num [detA, det3, coefA1, coefA3, coefB2, coefB3, coefC1, coefC2, coefC3,
    p6, i2, ψ0, ca, lv]
  ring

lemma numw5_p6 (b : ℚ) : numw5 { p6 with β := b } i2 ψ0 =
    (1 - b) * (3647320121144436800 - 2813393382064686720 * b) := by
  norm_num [numw5, det3, coefA1, coefA3, coefB2, coefB3, coefC1, coefC2, coefC3,
    rhsA, rhsB, rhsC, p6, i2, ψ0, ca, lv]
  ring

/-- C6 (amended): at the default VBP configuration the solved zone
humidity ratio is strictly monotone in the bypass factor over `(0,1)` —
one fixed direction, here decreasing (more bypass forces a colder, drier
apparatus-dew-point under active zone-temperature control). -/
theorem C6_w5_monotone (b1 b2 : ℚ) (x1 x2 : Sol)
    (h0 : 0 < b1) (h12 : b1 < b2) (h21 : b2 < 1)
    (hs1 : solveLin { p6 with β := b1 } i2 ψ0 = some x1)
    (hs2 : solveLin { p6 with β := b2 } i2 ψ0 = some x2) :
    x2.w5 < x1.w5 := by
  obtain ⟨hm1, hΔ1, rfl⟩ := solveLin_cases hs1
  obtain ⟨hm2, hΔ2, rfl⟩ := solveLin_cases hs2
  rw [mkSol_w5, mkSol_w5, detA_p6, detA_p6, numw5_p6, numw5_p6]
  have hb1 : b1 < 1 := lt_trans h12 h21
  have h1ne : (1 : ℚ) - b1 ≠ 0 := by intro h; linarith [sub_eq_zero.1 h]
  have h2ne : (1 : ℚ) - b2 ≠ 0 := by intro h; linarith [sub_eq_zero.1 h]
  rw [mul_div_mul_left _ _ h2ne, mul_div_mul_left _ _ h1ne]
  have hD1 : (0 : ℚ) < 344323420458538560000 - 162489696808053888000 * b1 := by
    nlinarith
  have hD2 : (0 : ℚ) < 344323420458538560000 - 162489696808053888000 * b2 := by
    nlinarith
  rw [div_lt_div_iff hD2 hD1]
  have key : (3647320121144436800 - 2813393382064686720 * b1) *
        (344323420458538560000 - 162489696808053888000 * b2) -
      (3647320121144436800 - 2813393382064686720 * b2) *
        (344323420458538560000 - 162489696808053888000 * b1) =
      (b2 - b1) * 376065291761255030389847709629644800000 := by ring
  nlinarith [mul_pos (sub_pos.2 h12)
    (show (0 : ℚ) < 376065291761255030389847709629644800000 by norm_num), key]

/-- Witness for C6: two concrete bypass factors in `(0,1)` at the default
VBP configuration, both solvable, with the zone humidity strictly lower
at the larger bypass factor. -/
theorem C6_w5_monotone_witness :
    solveLin { p6 with β := 1 / 4 } i2 ψ0 =
      some (mkSol { p6 with β := 1 / 4 } i2 ψ0) ∧
    solveLin { p6 with β := 1 / 2 } i2 ψ0 =
      some (mkSol { p6 with β := 1 / 2 } i2 ψ0) ∧
    (mkSol { p6 with β := 1 / 2 } i2 ψ0).w5 <
      (mkSol { p6 with β := 1 / 4 } i2 ψ0).w5 := by
  have h1 : solveLin { p6 with β := 1 / 4 } i2 ψ0 =
      some (mkSol { p6 with β := 1 / 4 } i2 ψ0) := by
    rw [solveLin, if_neg]
    push_neg
    exact ⟨by norm_num [p6], by rw [detA_p6]; norm_num⟩
  have h2 : solveLin { p6 with β := 1 / 2 } i2 ψ0 =
      some (mkSol { p6 with β := 1 / 2 } i2 ψ0) := by
    rw [solveLin, if_neg]
    push_neg
    exact ⟨by norm_num [p6], by rw [detA_p6]; norm_num⟩
  exact ⟨h1, h2, C6_w5_monotone (1 / 4) (1 / 2) _ _ (by norm_num) (by norm_num)
    (by norm_num) h1 h2⟩

/-- Parameter set with a finite negative temperature gain placing a
singularity of the assembled matrix inside `(0,1)`. -/
def pc6 : Params := ⟨31 / 10, 1, 4 / 25, -555819 / 85, 0⟩

/-- Counterexample to C6 as stated: a fixed parameter/input set for which
the solved zone humidity is not monotone in the bypass factor — it
decreases from β = 1/4 to β = 9/20 and increases from β = 9/20 to
β = 11/20. -/
theorem C6_counterexample :
    ∃ x1 x2 x3,
      solveLin { pc6 with β := 1 / 4 } i2 ψ0 = some x1 ∧
      solveLin { pc6 with β := 9 / 20 } i2 ψ0 = some x2 ∧
      solveLin { pc6 with β := 11 / 20 } i2 ψ0 = some x3 ∧
      x2.w5 < x1.w5 ∧ x2.w5 < x3.w5 := by
  refine ⟨mkSol { pc6 with β := 1 / 4 } i2 ψ0, mkSol { pc6 with β := 9 / 20 } i2 ψ0,
    mkSol { pc6 with β := 11 / 20 } i2 ψ0, ?_, ?_, ?_, ?_, ?_⟩
  · rw [solveLin, if_neg]
    push_neg
    refine ⟨by norm_num [pc6], ?_⟩
    norm_num [detA, det3, coefA1, coefA3, coefB2, coefB3, coefC1, coefC2, coefC3,
      pc6, i2, ψ0, ca, lv]
  · rw [solveLin, if_neg]
    push_neg
    refine ⟨by norm_num [pc6], ?_⟩
    norm_num [detA, det3, coefA1, coefA3, coefB2, coefB3, coefC1, coefC2, coefC3,
      pc6, i2, ψ0, ca, lv]
  · rw [solveLin, if_neg]
    push_neg
    refine ⟨by norm_num [pc6], ?_⟩
    norm_num [detA, det3, coefA1, coefA3, coefB2, coefB3, coefC1, coefC2, coefC3,
      pc6, i2, ψ0, ca, lv]
  · rw [mkSol_w5, mkSol_w5]
    norm_num [detA, numθ5, numw5, numθ2, det3, coefA1, coefA3, coefB2, coefB3,
      coefC1, coefC2, coefC3, rhsA, rhsB, rhsC, pc6, i2, ψ0, ca, lv]
  · rw [mkSol_w5, mkSol_w5]
    norm_num [detA, numθ5, numw5, numθ2, det3, coefA1, coefA3, coefB2, coefB3,
      coefC1, coefC2, coefC3, rhsA, rhsB, rhsC, pc6, i2, ψ0, ca, lv]

end Cool
